import Mathlib

/-!
Shallow embedding of the tcp-lb-go load balancer core: the token-bucket
rate limiter, the backend registry with least-connections selection, the
routing orchestrator, and the server-side authentication helpers.
Go `float64` time arithmetic is modelled over `ℚ`, Go `uint64` over `Nat`,
Go `int64` over `Int`, and Go maps over association lists with unique keys.
Stateful methods become explicit state-passing functions; the wall clock is
passed in as an explicit `now : ℚ` (seconds).
-/

namespace TcpLb

/-! ### Association-list model of Go maps -/

/-- Lookup in an association list, the model of a Go map read `m[k]`. -/
def lookupKey {β : Type} : List (String × β) → String → Option β
  | [], _ => none
  | (k', v) :: rest, k => if k' = k then some v else lookupKey rest k

/-- Update or insert a key, the model of a Go map write `m[k] = v`. -/
def insertKey {β : Type} : List (String × β) → String → β → List (String × β)
  | [], k, v => [(k, v)]
  | (k', v') :: rest, k, v =>
    if k' = k then (k, v) :: rest else (k', v') :: insertKey rest k v

/-! ### Token bucket (`tokenBucket`, src/unnamed/part_001) -/

/-- The `tokenBucket` struct. `fractionalTokens` is the Go `float64`
accumulator modelled over `ℚ`; `lastRefillTime` is the `time.Time`
timestamp modelled as seconds. -/
structure tokenBucket where
  capacity : Nat
  tokens : Nat
  refillRate : Nat
  fractionalTokens : ℚ
  lastRefillTime : ℚ
  deriving Repr, DecidableEq

/-- Model of `newTokenBucket`: a fresh bucket starts full, with no fractional
residue, stamped with the current time. -/
def newTokenBucket (capacity refillRate : Nat) (now : ℚ) : tokenBucket :=
  { capacity := capacity
    tokens := capacity
    refillRate := refillRate
    fractionalTokens := 0
    lastRefillTime := now }

/-- Model of `tokenBucket.refillTokens`: add `elapsed × refillRate` tokens, keeping
the sub-token residue in `fractionalTokens` and carrying a whole token when
the residue reaches 1. Go's `uint64(refillAmount)` truncation is
`Int.toNat ⌊·⌋` (the elapsed time is non-negative in every run). The
`tokens` and `lastRefillTime` fields are written only when
`refillAmount > 0`, exactly as in the source. -/
def refillTokens (tb : tokenBucket) (now : ℚ) : tokenBucket :=
  let elapsed : ℚ := now - tb.lastRefillTime
  let refillAmount : ℚ := elapsed * (tb.refillRate : ℚ)
  let wholeTokens : Nat := (⌊refillAmount⌋).toNat
  let fractionalTokens : ℚ := tb.fractionalTokens + (refillAmount - (wholeTokens : ℚ))
  let wholeTokens : Nat := if 1 ≤ fractionalTokens then wholeTokens + 1 else wholeTokens
  let fractionalTokens : ℚ := if 1 ≤ fractionalTokens then fractionalTokens - 1 else fractionalTokens
  if 0 < refillAmount then
    { tb with
      tokens := min tb.capacity (tb.tokens + wholeTokens)
      fractionalTokens := fractionalTokens
      lastRefillTime := now }
  else
    { tb with fractionalTokens := fractionalTokens }

/-- Model of `tokenBucket.takeToken`: refill, then consume one token unless the
bucket is empty. Returns the admission verdict and the updated bucket. -/
def takeToken (tb : tokenBucket) (now : ℚ) : Bool × tokenBucket :=
  let tb := refillTokens tb now
  if tb.tokens = 0 then (false, tb)
  else (true, { tb with tokens := tb.tokens - 1 })

/-! ### Rate limiter (`rateLimiter`, src/unnamed/part_001) -/

/-- The `rateLimiter` struct: defaults for new buckets plus the
client-to-bucket map. The mutex is not modelled; all operations are
serialized by explicit state passing. -/
structure rateLimiter where
  bucketCapacity : Nat
  bucketRefillRate : Nat
  clientBuckets : List (String × tokenBucket)
  deriving Repr, DecidableEq

/-- Model of `newRateLimiter`: starts with an empty bucket map. -/
def newRateLimiter (bucketCapacity bucketRefillRate : Nat) : rateLimiter :=
  { bucketCapacity := bucketCapacity
    bucketRefillRate := bucketRefillRate
    clientBuckets := [] }

/-- The bucket `allowConnection` operates on: the existing one for
`clientID`, or a fresh bucket with the limiter's default parameters. -/
def initialBucket (rl : rateLimiter) (clientID : String) (now : ℚ) : tokenBucket :=
  match lookupKey rl.clientBuckets clientID with
  | some b => b
  | none => newTokenBucket rl.bucketCapacity rl.bucketRefillRate now

/-- Model of `rateLimiter.allowConnection`: find or lazily create the client's
bucket, take a token from it, and store the updated bucket back in the
map. -/
def allowConnection (rl : rateLimiter) (clientID : String) (now : ℚ) : Bool × rateLimiter :=
  let r := takeToken (initialBucket rl clientID now) now
  (r.1, { rl with clientBuckets := insertKey rl.clientBuckets clientID r.2 })

/-! ### Backends and the load balancer (src/unnamed/part_002) -/

/-- The `Backend` struct: an address and the `connections` counter
(`atomic.Int64`, modelled as `Int`). -/
structure Backend where
  Address : String
  connections : Int
  deriving Repr, DecidableEq

/-- Model of `Backend.incrementConnections`. -/
def incrementConnections (b : Backend) : Backend :=
  { b with connections := b.connections + 1 }

/-- Model of `Backend.decrementConnections`. -/
def decrementConnections (b : Backend) : Backend :=
  { b with connections := b.connections - 1 }

/-- The package-level error values of src/unnamed/part_002, together with
the two failure outcomes `RouteConnection` propagates from dialing and from
`transferData`. -/
inductive lbError where
  | ErrNoRegisteredBackends
  | ErrNoAvailableBackend
  | ErrRateLimitReached
  | ErrDialFailed
  | ErrTransferFailed
  deriving Repr, DecidableEq

/-- Apply `f` to the element at position `i`, leaving the rest of the list
unchanged (the model of mutating one `*Backend` in the registry slice). -/
def modifyIdx (f : Backend → Backend) : List Backend → Nat → List Backend
  | [], _ => []
  | b :: rest, 0 => f b :: rest
  | b :: rest, n + 1 => b :: modifyIdx f rest n

/-- The scan loop of `LoadBalancer.GetBackend`: walk the registry slice in
order carrying `start`, the index of the head of the remaining suffix, and
the accumulator `acc = some (index, leastConnectionCount)` for the
currently selected backend (`none` while `selectedBackend == nil`).
A backend whose address is not in `allowed` is skipped; a later backend
replaces the selection only when its count is strictly smaller. -/
def selectLoop (allowed : List String) : List Backend → Nat → Option (Nat × Int) → Option (Nat × Int)
  | [], _, acc => acc
  | b :: rest, start, acc =>
    if b.Address ∈ allowed then
      match acc with
      | none => selectLoop allowed rest (start + 1) (some (start, b.connections))
      | some (j, least) =>
        if b.connections < least then
          selectLoop allowed rest (start + 1) (some (start, b.connections))
        else
          selectLoop allowed rest (start + 1) (some (j, least))
    else
      selectLoop allowed rest (start + 1) acc

/-- Model of `LoadBalancer.GetBackend`: error when the registry is empty, error when
no registered backend is allowed, otherwise the index of the selected
backend together with the registry after its counter is incremented. The
registry list is returned on every path so that the error paths visibly
leave it unchanged. -/
def GetBackend (backends : List Backend) (allowed : List String) :
    Except lbError Nat × List Backend :=
  if backends.length = 0 then
    (Except.error lbError.ErrNoRegisteredBackends, backends)
  else
    match selectLoop allowed backends 0 none with
    | none => (Except.error lbError.ErrNoAvailableBackend, backends)
    | some (i, _) => (Except.ok i, modifyIdx incrementConnections backends i)

/-- The mutable state a `LoadBalancer` owns: the registry slice and the
rate limiter. -/
structure LBState where
  backends : List Backend
  rl : rateLimiter
  deriving Repr, DecidableEq

/-- The observable outcome of one `RouteConnection` call: the returned
error (`none` is success), the final load-balancer state, and whether a
dial to a backend was attempted. -/
structure RouteResult where
  result : Option lbError
  state : LBState
  dialAttempted : Bool
  deriving Repr, DecidableEq

/-- Model of `LoadBalancer.RouteConnection`: admit via the rate limiter, select a
backend (propagating selection errors), schedule the deferred decrement of
the selected backend's counter (it runs on **every** return path after a
successful selection), then dial and relay. The outcomes of the dial and
of `transferData` are inputs (`dialOk`, `transferOk`), since they depend
on the network. -/
def RouteConnection (lb : LBState) (clientID : String) (allowed : List String)
    (now : ℚ) (dialOk transferOk : Bool) : RouteResult :=
  let a := allowConnection lb.rl clientID now
  if !a.1 then
    { result := some lbError.ErrRateLimitReached
      state := { backends := lb.backends, rl := a.2 }
      dialAttempted := false }
  else
    match GetBackend lb.backends allowed with
    | (Except.error e, bs) =>
      { result := some e
        state := { backends := bs, rl := a.2 }
        dialAttempted := false }
    | (Except.ok i, bs) =>
      let released := modifyIdx decrementConnections bs i
      if !dialOk then
        { result := some lbError.ErrDialFailed
          state := { backends := released, rl := a.2 }
          dialAttempted := true }
      else if !transferOk then
        { result := some lbError.ErrTransferFailed
          state := { backends := released, rl := a.2 }
          dialAttempted := true }
      else
        { result := none
          state := { backends := released, rl := a.2 }
          dialAttempted := true }

/-! ### Server-side authentication (src/server/server.go) -/

/-- The outcome of `ValidateCommonName` (src/server/server.go, lines
242-252). A certificate is represented by its Subject CommonName, the only
field the function reads; the Go function ignores the boolean values of
the `allowedClients` map: `_, isAllowed := allowedClients[clientCertCN]`
binds the comma-ok presence flag, not the stored value. -/
inductive authError where
  | CNMissing
  | CNNotAllowed
  deriving Repr, DecidableEq

/-- Model of `ValidateCommonName`: reject an empty CommonName, then reject when the
CommonName is absent from the `allowedClients` map; `none` means the check
passed. -/
def ValidateCommonName (clientCertCN : String) (allowedClients : List (String × Bool)) :
    Option authError :=
  if clientCertCN = "" then some authError.CNMissing
  else
    let isAllowed := (lookupKey allowedClients clientCertCN).isSome
    if !isAllowed then some authError.CNNotAllowed
    else none

/-- One iteration of the `Server.acceptConnections` loop (src/server/server.go,
lines 100-123). The loop condition `!s.shutdown.Load()` reads the shutdown
flag once, at the top; `shutdownAtTop` is that read. `shutdownAtError` is
the value the flag holds at the moment an accept error is handled — the Go
error branch performs `retryCount++; time.Sleep(retryDelay); continue`
(or `log.Fatalf` once `retryCount` reaches the limit) without reading the
flag, so the parameter is unused in the body, faithfully to the source. -/
inductive acceptStep where
  | exited
  | accepted (retryCount : Nat)
  | retried (retryCount : Nat)
  | fatalExit
  deriving Repr, DecidableEq

/-- The `retryLimit` constant of `Server.acceptConnections`. -/
def retryLimit : Nat := 5

/-- One iteration of the accept loop; see `acceptStep`. -/
def acceptIteration (shutdownAtTop acceptOk shutdownAtError : Bool)
    (retryCount : Nat) : acceptStep :=
  if shutdownAtTop then acceptStep.exited
  else if acceptOk then acceptStep.accepted 0
  else if retryCount < retryLimit then acceptStep.retried (retryCount + 1)
  else acceptStep.fatalExit

/-- What `main` does with the `-config` flag (src/main.go, lines 28-33):
`printedUsage` records that the error line and `flag.Usage()` were printed,
and `exitCode = some c` means the process terminates with status `c`
(`none` means startup continues). When the flag is empty the Go code
prints and then executes a bare `return` from `main`, which terminates the
process with exit status 0. -/
structure mainFlagOutcome where
  printedUsage : Bool
  exitCode : Option Nat
  deriving Repr, DecidableEq

/-- The `-config` flag check at the top of `main`. -/
def mainConfigFlagCheck (configFileFlag : String) : mainFlagOutcome :=
  if configFileFlag = "" then { printedUsage := true, exitCode := some 0 }
  else { printedUsage := false, exitCode := none }

/-! ### Client identity (`GenerateClientID`, src/server/server.go) -/

/-- UTF-8 encoding of one Unicode code point, as a list of byte values. -/
def utf8EncodeCodePoint (c : Nat) : List Nat :=
  if c < 0x80 then [c]
  else if c < 0x800 then
    [0xC0 ||| (c >>> 6), 0x80 ||| (c &&& 0x3F)]
  else if c < 0x10000 then
    [0xE0 ||| (c >>> 12), 0x80 ||| ((c >>> 6) &&& 0x3F), 0x80 ||| (c &&& 0x3F)]
  else
    [0xF0 ||| (c >>> 18), 0x80 ||| ((c >>> 12) &&& 0x3F),
     0x80 ||| ((c >>> 6) &&& 0x3F), 0x80 ||| (c &&& 0x3F)]

/-- The byte string of a Go `string`: UTF-8 bytes of its code points
(the model of the `[]byte(combined)` conversion). -/
def strBytes (s : String) : List Nat :=
  (s.data.map fun c => utf8EncodeCodePoint c.toNat).flatten

/-- Keep the low 32 bits, the wrap-around of SHA-256 word arithmetic. -/
def mask32 (n : Nat) : Nat := n % 4294967296

/-- Right rotation of a 32-bit word by `n` bits. -/
def rotr32 (n x : Nat) : Nat := mask32 ((x >>> n) ||| (x <<< (32 - n)))

/-- Big-endian byte rendering of `n` in `k` bytes. -/
def beBytes : Nat → Nat → List Nat
  | 0, _ => []
  | k + 1, n => ((n >>> (8 * k)) % 256) :: beBytes k n

/-- SHA-256 padding: append `0x80`, then zeros, then the 64-bit big-endian
bit length, reaching a multiple of 64 bytes. -/
def sha256Pad (msg : List Nat) : List Nat :=
  let L := msg.length
  let zeros := (119 - L % 64) % 64
  msg ++ 0x80 :: List.replicate zeros 0 ++ beBytes 8 (8 * L)

/-- Group a byte list into big-endian 32-bit words, four bytes per word. -/
def bytesToWords : List Nat → List Nat
  | b0 :: b1 :: b2 :: b3 :: rest => (((b0 * 256 + b1) * 256 + b2) * 256 + b3) :: bytesToWords rest
  | _ => []

/-- The SHA-256 round constants. -/
def sha256K : List Nat :=
  [1116352408, 1899447441, 3049323471, 3921009573, 961987163, 1508970993,
   2453635748, 2870763221, 3624381080, 310598401, 607225278, 1426881987,
   1925078388, 2162078206, 2614888103, 3248222580, 3835390401, 4022224774,
   264347078, 604807628, 770255983, 1249150122, 1555081692, 1996064986,
   2554220882, 2821834349, 2952996808, 3210313671, 3336571891, 3584528711,
   113926993, 338241895, 666307205, 773529912, 1294757372, 1396182291,
   1695183700, 1986661051, 2177026350, 2456956037, 2730485921, 2820302411,
   3259730800, 3345764771, 3516065817, 3600352804, 4094571909, 275423344,
   430227734, 506948616, 659060556, 883997877, 958139571, 1322822218,
   1537002063, 1747873779, 1955562222, 2024104815, 2227730452, 2361852424,
   2428436474, 2756734187, 3204031479, 3329325298]

/-- The SHA-256 initial hash value. -/
def sha256H0 : List Nat :=
  [1779033703, 3144134277, 1013904242, 2773480762,
   1359893119, 2600822924, 528734635, 1541459225]

/-- Message-schedule small sigma 0. -/
def ssig0 (x : Nat) : Nat := (rotr32 7 x) ^^^ (rotr32 18 x) ^^^ (x >>> 3)

/-- Message-schedule small sigma 1. -/
def ssig1 (x : Nat) : Nat := (rotr32 17 x) ^^^ (rotr32 19 x) ^^^ (x >>> 10)

/-- Extend the 16-word block to the full 64-word message schedule;
`fuel` counts the words still to append. -/
def extendSchedule : Nat → List Nat → List Nat
  | 0, ws => ws
  | fuel + 1, ws =>
    let i := ws.length
    let w := mask32 (ws.getD (i - 16) 0 + ssig0 (ws.getD (i - 15) 0)
      + ws.getD (i - 7) 0 + ssig1 (ws.getD (i - 2) 0))
    extendSchedule fuel (ws ++ [w])

/-- The eight working variables of the SHA-256 compression function. -/
structure sha256Regs where
  a : Nat
  b : Nat
  c : Nat
  d : Nat
  e : Nat
  f : Nat
  g : Nat
  h : Nat
  deriving Repr, DecidableEq

/-- One SHA-256 compression round with round constant `ki` and schedule
word `wi`. -/
def sha256Round (st : sha256Regs) (ki wi : Nat) : sha256Regs :=
  let bsig1 := (rotr32 6 st.e) ^^^ (rotr32 11 st.e) ^^^ (rotr32 25 st.e)
  let ch := (st.e &&& st.f) ^^^ ((0xFFFFFFFF ^^^ st.e) &&& st.g)
  let temp1 := mask32 (st.h + bsig1 + ch + ki + wi)
  let bsig0 := (rotr32 2 st.a) ^^^ (rotr32 13 st.a) ^^^ (rotr32 22 st.a)
  let maj := (st.a &&& st.b) ^^^ (st.a &&& st.c) ^^^ (st.b &&& st.c)
  let temp2 := mask32 (bsig0 + maj)
  { a := mask32 (temp1 + temp2)
    b := st.a
    c := st.b
    d := st.c
    e := mask32 (st.d + temp1)
    f := st.e
    g := st.f
    h := st.g }

/-- Compress one 64-byte block into the running hash value. -/
def sha256Compress (H : List Nat) (block : List Nat) : List Nat :=
  let ws := extendSchedule 48 (bytesToWords block)
  let st0 : sha256Regs :=
    { a := H.getD 0 0, b := H.getD 1 0, c := H.getD 2 0, d := H.getD 3 0
      e := H.getD 4 0, f := H.getD 5 0, g := H.getD 6 0, h := H.getD 7 0 }
  let st := (List.zip sha256K ws).foldl (fun st p => sha256Round st p.1 p.2) st0
  [mask32 (H.getD 0 0 + st.a), mask32 (H.getD 1 0 + st.b),
   mask32 (H.getD 2 0 + st.c), mask32 (H.getD 3 0 + st.d),
   mask32 (H.getD 4 0 + st.e), mask32 (H.getD 5 0 + st.f),
   mask32 (H.getD 6 0 + st.g), mask32 (H.getD 7 0 + st.h)]

/-- Split a padded message into 64-byte blocks; `fuel` bounds the number of
blocks and exceeds it for every input we use. -/
def splitBlocks : Nat → List Nat → List (List Nat)
  | 0, _ => []
  | _ + 1, [] => []
  | fuel + 1, bytes => bytes.take 64 :: splitBlocks fuel (bytes.drop 64)

/-- SHA-256 of a byte string, as the list of 32 digest bytes. -/
def sha256 (msg : List Nat) : List Nat :=
  let padded := sha256Pad msg
  let blocks := splitBlocks (padded.length / 64 + 1) padded
  let H := blocks.foldl sha256Compress sha256H0
  (H.map (beBytes 4)).flatten

/-- The lowercase hexadecimal digit for `n < 16`. -/
def hexDigit (n : Nat) : Char :=
  if n < 10 then Char.ofNat (48 + n) else Char.ofNat (87 + n)

/-- Lowercase hexadecimal encoding of a byte string, the model of Go's
`hex.EncodeToString`. -/
def hexEncode (bs : List Nat) : String :=
  String.mk ((bs.map fun b => [hexDigit (b / 16), hexDigit (b % 16)]).flatten)

/-- Model of `GenerateClientID` (src/server/server.go, lines 196-207): concatenate
the CommonName and serial string with a `:` separator, hash with SHA-256,
and render in lowercase hexadecimal. -/
def GenerateClientID (cn serialNumber : String) : String :=
  let combined := cn ++ ":" ++ serialNumber
  hexEncode (sha256 (strBytes combined))

set_option maxRecDepth 100000

/-! ### Helper lemmas -/

/-- Looking up the key just written returns the written value. -/
theorem lookupKey_insertKey_self {β : Type} (m : List (String × β)) (k : String) (v : β) :
    lookupKey (insertKey m k v) k = some v := by
  induction m with
  | nil => simp [insertKey, lookupKey]
  | cons p rest ih =>
    obtain ⟨k', v'⟩ := p
    by_cases h : k' = k <;> simp [insertKey, lookupKey, h, ih]

/-- The function `modifyIdx` preserves the length of the registry. -/
theorem modifyIdx_length (f : Backend → Backend) (l : List Backend) (i : Nat) :
    (modifyIdx f l i).length = l.length := by
  induction l generalizing i with
  | nil => rfl
  | cons b rest ih =>
    cases i with
    | zero => rfl
    | succ n => simp [modifyIdx, ih]

/-- The modified position holds the updated backend. -/
theorem get_modifyIdx_self (f : Backend → Backend) (l : List Backend) (i : Nat)
    (h : i < l.length) (h' : i < (modifyIdx f l i).length) :
    (modifyIdx f l i).get ⟨i, h'⟩ = f (l.get ⟨i, h⟩) := by
  induction l generalizing i with
  | nil => exact absurd h (Nat.not_lt_zero i)
  | cons b rest ih =>
    cases i with
    | zero => rfl
    | succ n => exact ih n (Nat.lt_of_succ_lt_succ h) (Nat.lt_of_succ_lt_succ h')

/-- Positions other than the modified one are untouched. -/
theorem get_modifyIdx_ne (f : Backend → Backend) (l : List Backend) (i j : Nat)
    (hj : j < l.length) (hj' : j < (modifyIdx f l i).length) (hne : j ≠ i) :
    (modifyIdx f l i).get ⟨j, hj'⟩ = l.get ⟨j, hj⟩ := by
  induction l generalizing i j with
  | nil => exact absurd hj (Nat.not_lt_zero j)
  | cons b rest ih =>
    cases i with
    | zero =>
      cases j with
      | zero => exact absurd rfl hne
      | succ m => rfl
    | succ n =>
      cases j with
      | zero => rfl
      | succ m =>
        exact ih n m (Nat.lt_of_succ_lt_succ hj) (Nat.lt_of_succ_lt_succ hj')
          (fun hc => hne (by rw [hc]))

/-- Modifying the same position twice with inverse updates restores the
registry. -/
theorem modifyIdx_cancel (f g : Backend → Backend) (hfg : ∀ b, g (f b) = b)
    (l : List Backend) (i : Nat) :
    modifyIdx g (modifyIdx f l i) i = l := by
  induction l generalizing i with
  | nil => rfl
  | cons b rest ih =>
    cases i with
    | zero => simp [modifyIdx, hfg]
    | succ n => simp [modifyIdx, ih]

/-- Decrementing undoes incrementing a backend's counter. -/
theorem decrement_increment (b : Backend) :
    decrementConnections (incrementConnections b) = b := by
  simp [incrementConnections, decrementConnections]

/-- With a zero elapsed time, one `refillTokens` call leaves the bucket
unchanged, provided the fractional residue is below 1 (an invariant of
every reachable bucket state). -/
theorem refillTokens_same_time (tb : tokenBucket) (h : tb.fractionalTokens < 1) :
    refillTokens tb tb.lastRefillTime = tb := by
  unfold refillTokens
  simp only [sub_self, zero_mul, Int.floor_zero, Int.toNat_zero, Nat.cast_zero,
    sub_zero, add_zero, lt_self_iff_false, if_false, not_le.mpr h]

/-- Head of a cons at position 0. -/
theorem get_cons_zero (b : Backend) (rest : List Backend) (h : 0 < (b :: rest).length) :
    (b :: rest).get ⟨0, h⟩ = b := rfl

/-- Tail positions of a cons. -/
theorem get_cons_succ (b : Backend) (rest : List Backend) (p : Nat)
    (h : p + 1 < (b :: rest).length) (h' : p < rest.length) :
    (b :: rest).get ⟨p + 1, h⟩ = rest.get ⟨p, h'⟩ := rfl

/-- Once a backend is selected the scan never returns to `none`. -/
theorem selectLoop_isSome (allowed : List String) (bs : List Backend) :
    ∀ (start j : Nat) (c : Int),
      (selectLoop allowed bs start (some (j, c))).isSome := by
  induction bs with
  | nil => intro start j c; rfl
  | cons b rest ih =>
    intro start j c
    by_cases hmem : b.Address ∈ allowed
    · by_cases hlt : b.connections < c <;> simp [selectLoop, hmem, hlt, ih]
    · simp [selectLoop, hmem, ih]

/-- The scan started with no selection ends with no selection exactly when
no backend in the suffix has an allowed address. -/
theorem selectLoop_none_iff (allowed : List String) (bs : List Backend) :
    ∀ start : Nat,
      selectLoop allowed bs start none = none ↔ ∀ b ∈ bs, b.Address ∉ allowed := by
  induction bs with
  | nil => intro start; simp [selectLoop]
  | cons b rest ih =>
    intro start
    by_cases hmem : b.Address ∈ allowed
    · constructor
      · intro h
        exfalso
        have hs := selectLoop_isSome allowed rest (start + 1) start b.connections
        simp only [selectLoop, hmem, if_true] at h
        rw [h] at hs
        exact Bool.noConfusion hs
      · intro h
        exact absurd hmem (h b (List.mem_cons_self b rest))
    · simp [selectLoop, hmem, ih]

/-- Where the scan's winner comes from: the initial selection, or an
allowed backend of the scanned suffix, at its absolute index. -/
theorem selectLoop_source (allowed : List String) (bs : List Backend) :
    ∀ (start : Nat) (acc : Option (Nat × Int)) (j : Nat) (c : Int),
      selectLoop allowed bs start acc = some (j, c) →
      acc = some (j, c) ∨
      ∃ p, ∃ hp : p < bs.length, j = start + p ∧
        (bs.get ⟨p, hp⟩).Address ∈ allowed ∧ (bs.get ⟨p, hp⟩).connections = c := by
  induction bs with
  | nil => intro start acc j c h; exact Or.inl h
  | cons b rest ih =>
    intro start acc j c h
    by_cases hmem : b.Address ∈ allowed
    · cases acc with
      | none =>
        have h' : selectLoop allowed rest (start + 1) (some (start, b.connections))
            = some (j, c) := by simpa [selectLoop, hmem] using h
        rcases ih (start + 1) _ j c h' with hacc | ⟨p, hp, hj, hmem', hc⟩
        · obtain ⟨h1, h2⟩ := Prod.mk.injEq .. ▸ Option.some.inj hacc
          exact Or.inr ⟨0, Nat.succ_pos _, by omega, by simpa using hmem,
            by simpa using h2⟩
        · exact Or.inr ⟨p + 1, Nat.succ_lt_succ hp, by omega,
            by rwa [get_cons_succ b rest p (Nat.succ_lt_succ hp) hp],
            by rwa [get_cons_succ b rest p (Nat.succ_lt_succ hp) hp]⟩
      | some jc =>
        obtain ⟨j0, c0⟩ := jc
        by_cases hlt : b.connections < c0
        · have h' : selectLoop allowed rest (start + 1) (some (start, b.connections))
              = some (j, c) := by simpa [selectLoop, hmem, hlt] using h
          rcases ih (start + 1) _ j c h' with hacc | ⟨p, hp, hj, hmem', hc⟩
          · obtain ⟨h1, h2⟩ := Prod.mk.injEq .. ▸ Option.some.inj hacc
            exact Or.inr ⟨0, Nat.succ_pos _, by omega, by simpa using hmem,
              by simpa using h2⟩
          · exact Or.inr ⟨p + 1, Nat.succ_lt_succ hp, by omega,
              by rwa [get_cons_succ b rest p (Nat.succ_lt_succ hp) hp],
              by rwa [get_cons_succ b rest p (Nat.succ_lt_succ hp) hp]⟩
        · have h' : selectLoop allowed rest (start + 1) (some (j0, c0))
              = some (j, c) := by simpa [selectLoop, hmem, hlt] using h
          rcases ih (start + 1) _ j c h' with hacc | ⟨p, hp, hj, hmem', hc⟩
          · exact Or.inl hacc
          · exact Or.inr ⟨p + 1, Nat.succ_lt_succ hp, by omega,
              by rwa [get_cons_succ b rest p (Nat.succ_lt_succ hp) hp],
              by rwa [get_cons_succ b rest p (Nat.succ_lt_succ hp) hp]⟩
    · have h' : selectLoop allowed rest (start + 1) acc = some (j, c) := by
        simpa [selectLoop, hmem] using h
      rcases ih (start + 1) acc j c h' with hacc | ⟨p, hp, hj, hmem', hc⟩
      · exact Or.inl hacc
      · exact Or.inr ⟨p + 1, Nat.succ_lt_succ hp, by omega,
          by rwa [get_cons_succ b rest p (Nat.succ_lt_succ hp) hp],
          by rwa [get_cons_succ b rest p (Nat.succ_lt_succ hp) hp]⟩

/-- The winning count is a lower bound on the initial selection's count
and on every allowed backend's count in the scanned suffix. -/
theorem selectLoop_min (allowed : List String) (bs : List Backend) :
    ∀ (start : Nat) (acc : Option (Nat × Int)) (j : Nat) (c : Int),
      selectLoop allowed bs start acc = some (j, c) →
      (∀ j0 c0, acc = some (j0, c0) → c ≤ c0) ∧
      (∀ p (hp : p < bs.length), (bs.get ⟨p, hp⟩).Address ∈ allowed →
        c ≤ (bs.get ⟨p, hp⟩).connections) := by
  induction bs with
  | nil =>
    intro start acc j c h
    refine ⟨fun j0 c0 hacc => ?_, fun p hp => absurd hp (Nat.not_lt_zero p)⟩
    rw [show selectLoop allowed [] start acc = acc from rfl] at h
    rw [h] at hacc
    obtain ⟨-, h2⟩ := Prod.mk.injEq .. ▸ Option.some.inj hacc
    exact le_of_eq h2
  | cons b rest ih =>
    intro start acc j c h
    by_cases hmem : b.Address ∈ allowed
    · cases acc with
      | none =>
        have h' : selectLoop allowed rest (start + 1) (some (start, b.connections))
            = some (j, c) := by simpa [selectLoop, hmem] using h
        obtain ⟨ih1, ih2⟩ := ih (start + 1) _ j c h'
        refine ⟨fun j0 c0 hacc => Option.noConfusion hacc, fun p hp hpmem => ?_⟩
        cases p with
        | zero => simpa using ih1 start b.connections rfl
        | succ q =>
          rw [get_cons_succ b rest q hp (Nat.lt_of_succ_lt_succ hp)] at hpmem ⊢
          exact ih2 q (Nat.lt_of_succ_lt_succ hp) hpmem
      | some jc =>
        obtain ⟨j0, c0⟩ := jc
        by_cases hlt : b.connections < c0
        · have h' : selectLoop allowed rest (start + 1) (some (start, b.connections))
              = some (j, c) := by simpa [selectLoop, hmem, hlt] using h
          obtain ⟨ih1, ih2⟩ := ih (start + 1) _ j c h'
          have hcb : c ≤ b.connections := ih1 start b.connections rfl
          refine ⟨fun j1 c1 hacc => ?_, fun p hp hpmem => ?_⟩
          · obtain ⟨-, h2⟩ := Prod.mk.injEq .. ▸ Option.some.inj hacc
            exact le_of_lt (lt_of_le_of_lt hcb (h2 ▸ hlt))
          · cases p with
            | zero => simpa using hcb
            | succ q =>
              rw [get_cons_succ b rest q hp (Nat.lt_of_succ_lt_succ hp)] at hpmem ⊢
              exact ih2 q (Nat.lt_of_succ_lt_succ hp) hpmem
        · have h' : selectLoop allowed rest (start + 1) (some (j0, c0))
              = some (j, c) := by simpa [selectLoop, hmem, hlt] using h
          obtain ⟨ih1, ih2⟩ := ih (start + 1) _ j c h'
          have hcc0 : c ≤ c0 := ih1 j0 c0 rfl
          refine ⟨fun j1 c1 hacc => ?_, fun p hp hpmem => ?_⟩
          · obtain ⟨-, h2⟩ := Prod.mk.injEq .. ▸ Option.some.inj hacc
            exact h2 ▸ hcc0
          · cases p with
            | zero => simpa using le_trans hcc0 (not_lt.mp hlt)
            | succ q =>
              rw [get_cons_succ b rest q hp (Nat.lt_of_succ_lt_succ hp)] at hpmem ⊢
              exact ih2 q (Nat.lt_of_succ_lt_succ hp) hpmem
    · have h' : selectLoop allowed rest (start + 1) acc = some (j, c) := by
        simpa [selectLoop, hmem] using h
      obtain ⟨ih1, ih2⟩ := ih (start + 1) acc j c h'
      refine ⟨ih1, fun p hp hpmem => ?_⟩
      cases p with
      | zero => exact absurd (by simpa using hpmem) hmem
      | succ q =>
        rw [get_cons_succ b rest q hp (Nat.lt_of_succ_lt_succ hp)] at hpmem ⊢
        exact ih2 q (Nat.lt_of_succ_lt_succ hp) hpmem

/-- Ties are insertion-order stable: the winner's count is strictly below
the count of every allowed backend that precedes it, and strictly below
the initial selection's count whenever the winner replaced it. The side
condition keeps the initial selection's index below the scanned suffix. -/
theorem selectLoop_first (allowed : List String) (bs : List Backend) :
    ∀ (start : Nat) (acc : Option (Nat × Int)) (j : Nat) (c : Int),
      (∀ j0 c0, acc = some (j0, c0) → j0 < start) →
      selectLoop allowed bs start acc = some (j, c) →
      (∀ j0 c0, acc = some (j0, c0) → j ≠ j0 → c < c0) ∧
      (∀ p (hp : p < bs.length), (bs.get ⟨p, hp⟩).Address ∈ allowed →
        start + p < j → c < (bs.get ⟨p, hp⟩).connections) := by
  induction bs with
  | nil =>
    intro start acc j c hinv h
    refine ⟨fun j0 c0 hacc hne => ?_, fun p hp => absurd hp (Nat.not_lt_zero p)⟩
    rw [show selectLoop allowed [] start acc = acc from rfl] at h
    rw [h] at hacc
    obtain ⟨h1, -⟩ := Prod.mk.injEq .. ▸ Option.some.inj hacc
    exact absurd h1 hne
  | cons b rest ih =>
    intro start acc j c hinv h
    by_cases hmem : b.Address ∈ allowed
    · cases acc with
      | none =>
        have h' : selectLoop allowed rest (start + 1) (some (start, b.connections))
            = some (j, c) := by simpa [selectLoop, hmem] using h
        have hinv' : ∀ j0 c0, (some (start, b.connections) : Option (Nat × Int))
            = some (j0, c0) → j0 < start + 1 := by
          intro j0 c0 hacc
          obtain ⟨h1, -⟩ := Prod.mk.injEq .. ▸ Option.some.inj hacc
          omega
        obtain ⟨ih1, ih2⟩ := ih (start + 1) _ j c hinv' h'
        refine ⟨fun j0 c0 hacc => Option.noConfusion hacc, fun p hp hpmem hplt => ?_⟩
        cases p with
        | zero =>
          have hne : j ≠ start := by omega
          simpa using ih1 start b.connections rfl hne
        | succ q =>
          rw [get_cons_succ b rest q hp (Nat.lt_of_succ_lt_succ hp)] at hpmem ⊢
          exact ih2 q (Nat.lt_of_succ_lt_succ hp) hpmem (by omega)
      | some jc =>
        obtain ⟨j0, c0⟩ := jc
        have hj0 : j0 < start := hinv j0 c0 rfl
        by_cases hlt : b.connections < c0
        · have h' : selectLoop allowed rest (start + 1) (some (start, b.connections))
              = some (j, c) := by simpa [selectLoop, hmem, hlt] using h
          have hinv' : ∀ j1 c1, (some (start, b.connections) : Option (Nat × Int))
              = some (j1, c1) → j1 < start + 1 := by
            intro j1 c1 hacc
            obtain ⟨h1, -⟩ := Prod.mk.injEq .. ▸ Option.some.inj hacc
            omega
          obtain ⟨ih1, ih2⟩ := ih (start + 1) _ j c hinv' h'
          have hcb : c ≤ b.connections := (selectLoop_min allowed rest (start + 1) _ j c h').1
            start b.connections rfl
          refine ⟨fun j1 c1 hacc hne => ?_, fun p hp hpmem hplt => ?_⟩
          · obtain ⟨-, h2⟩ := Prod.mk.injEq .. ▸ Option.some.inj hacc
            exact lt_of_le_of_lt hcb (h2 ▸ hlt)
          · cases p with
            | zero =>
              have hne : j ≠ start := by omega
              simpa using ih1 start b.connections rfl hne
            | succ q =>
              rw [get_cons_succ b rest q hp (Nat.lt_of_succ_lt_succ hp)] at hpmem ⊢
              exact ih2 q (Nat.lt_of_succ_lt_succ hp) hpmem (by omega)
        · have h' : selectLoop allowed rest (start + 1) (some (j0, c0))
              = some (j, c) := by simpa [selectLoop, hmem, hlt] using h
          have hinv' : ∀ j1 c1, (some (j0, c0) : Option (Nat × Int))
              = some (j1, c1) → j1 < start + 1 := by
            intro j1 c1 hacc
            obtain ⟨h1, -⟩ := Prod.mk.injEq .. ▸ Option.some.inj hacc
            omega
          obtain ⟨ih1, ih2⟩ := ih (start + 1) _ j c hinv' h'
          refine ⟨fun j1 c1 hacc => ?_, fun p hp hpmem hplt => ?_⟩
          · obtain ⟨h1, h2⟩ := Prod.mk.injEq .. ▸ Option.some.inj hacc
            exact h1 ▸ h2 ▸ ih1 j0 c0 rfl
          · cases p with
            | zero =>
              have hne : j ≠ j0 := by omega
              have hcc0 : c < c0 := ih1 j0 c0 rfl hne
              simpa using lt_of_lt_of_le hcc0 (not_lt.mp hlt)
            | succ q =>
              rw [get_cons_succ b rest q hp (Nat.lt_of_succ_lt_succ hp)] at hpmem ⊢
              exact ih2 q (Nat.lt_of_succ_lt_succ hp) hpmem (by omega)
    · have h' : selectLoop allowed rest (start + 1) acc = some (j, c) := by
        simpa [selectLoop, hmem] using h
      have hinv' : ∀ j0 c0, acc = some (j0, c0) → j0 < start + 1 := by
        intro j0 c0 hacc
        exact Nat.lt_succ_of_lt (hinv j0 c0 hacc)
      obtain ⟨ih1, ih2⟩ := ih (start + 1) acc j c hinv' h'
      refine ⟨ih1, fun p hp hpmem hplt => ?_⟩
      cases p with
      | zero => exact absurd (by simpa using hpmem) hmem
      | succ q =>
        rw [get_cons_succ b rest q hp (Nat.lt_of_succ_lt_succ hp)] at hpmem ⊢
        exact ih2 q (Nat.lt_of_succ_lt_succ hp) hpmem (by omega)

/-! ### Claim theorems and witnesses -/

/-- A successful `GetBackend` comes from a successful scan, and the
returned registry is the input registry with the winner incremented. -/
theorem getBackend_ok (backends : List Backend) (allowed : List String)
    (i : Nat) (bs' : List Backend)
    (h : GetBackend backends allowed = (Except.ok i, bs')) :
    ∃ c, selectLoop allowed backends 0 none = some (i, c) ∧
      bs' = modifyIdx incrementConnections backends i := by
  by_cases hn : backends.length = 0
  · simp [GetBackend, hn] at h
  · rcases hsel : selectLoop allowed backends 0 none with _ | ⟨j, c⟩
    · simp [GetBackend, hn, hsel] at h
    · simp only [GetBackend, hn, if_false, hsel] at h
      obtain ⟨h1, h2⟩ := Prod.mk.injEq .. ▸ h
      obtain h1 := Except.ok.inj h1
      subst h1
      exact ⟨c, rfl, h2.symm⟩

/-- What the claim C1 asserts of a successful selection: the winner is a
registered backend with an allowed address, its observed count is minimal
among allowed backends, ties go to the smallest index, and the returned
registry differs from the input only at the winner, whose count is the
observed count plus one. -/
def LeastConnSpec (backends : List Backend) (allowed : List String) (i : Nat)
    (bs' : List Backend) : Prop :=
  ∃ hi : i < backends.length,
    (backends.get ⟨i, hi⟩).Address ∈ allowed ∧
    (∀ j, ∀ hj : j < backends.length, (backends.get ⟨j, hj⟩).Address ∈ allowed →
      (backends.get ⟨i, hi⟩).connections ≤ (backends.get ⟨j, hj⟩).connections) ∧
    (∀ j, ∀ hj : j < backends.length, (backends.get ⟨j, hj⟩).Address ∈ allowed → j < i →
      (backends.get ⟨i, hi⟩).connections < (backends.get ⟨j, hj⟩).connections) ∧
    bs' = modifyIdx incrementConnections backends i ∧
    ∀ hi' : i < bs'.length,
      (bs'.get ⟨i, hi'⟩).connections = (backends.get ⟨i, hi⟩).connections + 1 ∧
      (bs'.get ⟨i, hi'⟩).Address = (backends.get ⟨i, hi⟩).Address

/-- C1: every backend returned by `GetBackend(allowed)` has, at the moment
of selection, the minimal observed active-connection count among registered
backends whose address is in `allowed`; on ties the first by insertion
order wins; and its counter is incremented before returning, so its
post-return count is the observed count plus one. -/
theorem getBackend_least_connections (backends : List Backend) (allowed : List String)
    (i : Nat) (bs' : List Backend)
    (h : GetBackend backends allowed = (Except.ok i, bs')) :
    LeastConnSpec backends allowed i bs' := by
  obtain ⟨c, hsel, hbs'⟩ := getBackend_ok backends allowed i bs' h
  obtain hacc | ⟨p, hp, hip, hmem, hc⟩ :=
    selectLoop_source allowed backends 0 none i c hsel
  · exact Option.noConfusion hacc
  have hip' : i = p := by omega
  subst hip'
  have hi : i < backends.length := hp
  obtain ⟨-, hmin2⟩ := selectLoop_min allowed backends 0 none i c hsel
  obtain ⟨-, hf2⟩ := selectLoop_first allowed backends 0 none i c
    (fun j0 c0 hacc => Option.noConfusion hacc) hsel
  have hmem' : (backends.get ⟨i, hi⟩).Address ∈ allowed := hmem
  have hceq : (backends.get ⟨i, hi⟩).connections = c := hc
  refine ⟨hi, hmem', ?_, ?_, hbs', ?_⟩
  · intro j hj hjmem
    rw [hceq]
    exact hmin2 j hj hjmem
  · intro j hj hjmem hji
    rw [hceq]
    exact hf2 j hj hjmem (by omega)
  · intro hi'
    subst hbs'
    rw [get_modifyIdx_self incrementConnections backends i hi hi']
    exact ⟨rfl, rfl⟩

/-- Witness for C1: two registered backends with equal counts, both
allowed; the first one is selected and its counter goes to 1. -/
theorem getBackend_least_connections_witness :
    LeastConnSpec
      [{ Address := "127.0.0.1:5001", connections := 0 },
       { Address := "127.0.0.1:5002", connections := 0 }]
      ["127.0.0.1:5001", "127.0.0.1:5002"] 0
      [{ Address := "127.0.0.1:5001", connections := 1 },
       { Address := "127.0.0.1:5002", connections := 0 }] :=
  getBackend_least_connections _ _ _ _ (by rfl)

/-- C5: `GetBackend` returns `ErrNoRegisteredBackends` exactly when the
registry is empty, `ErrNoAvailableBackend` exactly when the registry is
non-empty but no registered address is allowed, and on either error the
registry (hence every counter) is unchanged. -/
theorem getBackend_error_iff (backends : List Backend) (allowed : List String) :
    ((GetBackend backends allowed).1 = Except.error lbError.ErrNoRegisteredBackends
      ↔ backends = []) ∧
    ((GetBackend backends allowed).1 = Except.error lbError.ErrNoAvailableBackend
      ↔ backends ≠ [] ∧ ∀ b ∈ backends, b.Address ∉ allowed) ∧
    (∀ e, (GetBackend backends allowed).1 = Except.error e →
      (GetBackend backends allowed).2 = backends) := by
  by_cases hn : backends.length = 0
  · have hbe : backends = [] := List.length_eq_zero.mp hn
    subst hbe
    simp [GetBackend]
  · have hne : backends ≠ [] := by
      intro hcon
      rw [hcon] at hn
      exact hn rfl
    rcases hsel : selectLoop allowed backends 0 none with _ | ⟨j, c⟩
    · have hall : ∀ b ∈ backends, b.Address ∉ allowed :=
        (selectLoop_none_iff allowed backends 0).mp hsel
      have hval : GetBackend backends allowed
          = (Except.error lbError.ErrNoAvailableBackend, backends) := by
        simp [GetBackend, hn, hsel]
      rw [hval]
      refine ⟨⟨fun hcon => ?_, fun hcon => absurd hcon hne⟩,
        ⟨fun _ => ⟨hne, hall⟩, fun _ => rfl⟩, fun e _ => rfl⟩
      exact absurd (Except.error.inj hcon) (by simp)
    · have hnotall : ¬ ∀ b ∈ backends, b.Address ∉ allowed := by
        intro hall
        rw [(selectLoop_none_iff allowed backends 0).mpr hall] at hsel
        exact Option.noConfusion hsel
      simp [GetBackend, hn, hsel, hne, hnotall]

/-- Witness for C5: an empty registry gives `ErrNoRegisteredBackends`; a
registry whose only backend is not allowed gives `ErrNoAvailableBackend`. -/
theorem getBackend_error_iff_witness :
    (GetBackend ([] : List Backend) ["x:1"]).1
      = Except.error lbError.ErrNoRegisteredBackends ∧
    (GetBackend [{ Address := "127.0.0.1:5001", connections := 0 }] ["x:1"]).1
      = Except.error lbError.ErrNoAvailableBackend := by
  constructor
  · exact (getBackend_error_iff ([] : List Backend) ["x:1"]).1.mpr rfl
  · refine (getBackend_error_iff
      [{ Address := "127.0.0.1:5001", connections := 0 }] ["x:1"]).2.1.mpr ⟨by simp, ?_⟩
    intro b hb
    simp at hb
    rw [hb]
    simp

/-- C2: whenever backend selection succeeds inside `RouteConnection`, the
chosen backend's counter is decremented exactly once by the time the call
returns — whatever the dial and relay outcomes — so the final registry is
the post-selection registry with the winner decremented, which equals the
registry before the call: the net change is zero. -/
theorem routeConnection_net_zero (lb : LBState) (clientID : String) (allowed : List String)
    (now : ℚ) (dialOk transferOk : Bool) (i : Nat) (bs' : List Backend)
    (hrl : (allowConnection lb.rl clientID now).1 = true)
    (hsel : GetBackend lb.backends allowed = (Except.ok i, bs')) :
    (RouteConnection lb clientID allowed now dialOk transferOk).state.backends
      = modifyIdx decrementConnections bs' i ∧
    (RouteConnection lb clientID allowed now dialOk transferOk).state.backends
      = lb.backends := by
  obtain ⟨c, -, hbs'⟩ := getBackend_ok lb.backends allowed i bs' hsel
  have hre : (RouteConnection lb clientID allowed now dialOk transferOk).state.backends
      = modifyIdx decrementConnections bs' i := by
    cases dialOk <;> cases transferOk <;> simp [RouteConnection, hrl, hsel]
  refine ⟨hre, ?_⟩
  rw [hre, hbs', modifyIdx_cancel _ _ decrement_increment]

/-- Witness for C2: one allowed backend, a fresh limiter with capacity 5;
the backend's counter returns to 0 after the routed call. -/
theorem routeConnection_net_zero_witness :
    (RouteConnection
        { backends := [{ Address := "127.0.0.1:5001", connections := 0 }],
          rl := newRateLimiter 5 2 }
        "client1" ["127.0.0.1:5001"] 0 true true).state.backends
      = modifyIdx decrementConnections
          [{ Address := "127.0.0.1:5001", connections := 1 }] 0 ∧
    (RouteConnection
        { backends := [{ Address := "127.0.0.1:5001", connections := 0 }],
          rl := newRateLimiter 5 2 }
        "client1" ["127.0.0.1:5001"] 0 true true).state.backends
      = [{ Address := "127.0.0.1:5001", connections := 0 }] :=
  routeConnection_net_zero
    { backends := [{ Address := "127.0.0.1:5001", connections := 0 }],
      rl := newRateLimiter 5 2 }
    "client1" ["127.0.0.1:5001"] 0 true true 0
    [{ Address := "127.0.0.1:5001", connections := 1 }]
    (by norm_num [allowConnection, initialBucket, lookupKey, newRateLimiter,
      newTokenBucket, takeToken, refillTokens])
    (by rfl)

/-- C10: once `allowConnection` has admitted the client, the consumed
token is never restored: whatever happens afterwards (selection failure,
dial failure, relay failure, or success — over any `allowed` set), the
limiter state when `RouteConnection` returns is exactly the
post-admission state, whose stored bucket for the client is the refilled
bucket with one token removed. -/
theorem routeConnection_token_spent (lb : LBState) (clientID : String) (now : ℚ)
    (hrl : (allowConnection lb.rl clientID now).1 = true) :
    (∀ allowed : List String, ∀ dialOk transferOk : Bool,
      (RouteConnection lb clientID allowed now dialOk transferOk).state.rl
        = (allowConnection lb.rl clientID now).2) ∧
    lookupKey ((allowConnection lb.rl clientID now).2.clientBuckets) clientID
      = some { refillTokens (initialBucket lb.rl clientID now) now with
               tokens := (refillTokens (initialBucket lb.rl clientID now) now).tokens - 1 } ∧
    (refillTokens (initialBucket lb.rl clientID now) now).tokens ≠ 0 := by
  have h0 : (refillTokens (initialBucket lb.rl clientID now) now).tokens ≠ 0 := by
    intro h0
    have hfalse : (allowConnection lb.rl clientID now).1 = false := by
      simp [allowConnection, takeToken, h0]
    rw [hfalse] at hrl
    exact Bool.noConfusion hrl
  refine ⟨?_, ?_, h0⟩
  · intro allowed dialOk transferOk
    rcases hg : GetBackend lb.backends allowed with ⟨r, bs⟩
    cases r <;> cases dialOk <;> cases transferOk <;> simp [RouteConnection, hrl, hg]
  · simp [allowConnection, takeToken, h0, lookupKey_insertKey_self]

/-- Witness for C10 at a limiter with default capacity 5, an empty
registry (so the call fails after admission with
`ErrNoRegisteredBackends`), and time 0. -/
theorem routeConnection_token_spent_witness :
    (∀ allowed : List String, ∀ dialOk transferOk : Bool,
      (RouteConnection { backends := [], rl := newRateLimiter 5 2 }
          "client1" allowed 0 dialOk transferOk).state.rl
        = (allowConnection (newRateLimiter 5 2) "client1" 0).2) ∧
    lookupKey ((allowConnection (newRateLimiter 5 2) "client1" 0).2.clientBuckets) "client1"
      = some { refillTokens (initialBucket (newRateLimiter 5 2) "client1" 0) 0 with
               tokens := (refillTokens (initialBucket (newRateLimiter 5 2) "client1" 0) 0).tokens - 1 } ∧
    (refillTokens (initialBucket (newRateLimiter 5 2) "client1" 0) 0).tokens ≠ 0 :=
  routeConnection_token_spent { backends := [], rl := newRateLimiter 5 2 } "client1" 0
    (by norm_num [allowConnection, initialBucket, lookupKey, newRateLimiter,
      newTokenBucket, takeToken, refillTokens])

/-- C3: the claim says a CommonName mapped to `false` in the
`allowed_clients` map is rejected with an authentication error. The code,
evaluated at that failing input, accepts: `ValidateCommonName` returns no
error for a CommonName present in the map with value `false`, because the
Go code binds the comma-ok presence flag and ignores the stored boolean. -/
theorem validateCommonName_accepts_false_mapped_cn :
    ValidateCommonName "client1.example.com" [("client1.example.com", false)] = none := by
  decide

/-- C6: with zero elapsed time since the last refill, N `refillTokens`
calls leave the bucket exactly as one call does, and a single call mutates
no field, for every bucket state satisfying the data-model invariant
`fractionalTokens < 1`. -/
theorem refillTokens_zero_delta (tb : tokenBucket) (N : Nat)
    (hfrac : tb.fractionalTokens < 1) (hN : 1 ≤ N) :
    (fun b => refillTokens b b.lastRefillTime)^[N] tb
      = refillTokens tb tb.lastRefillTime ∧
    refillTokens tb tb.lastRefillTime = tb := by
  have h1 : refillTokens tb tb.lastRefillTime = tb := refillTokens_same_time tb hfrac
  exact ⟨(Function.iterate_fixed h1 N).trans h1.symm, h1⟩

/-- Witness for C6 at a concrete bucket with a fractional residue of 1/2
and N = 3. -/
theorem refillTokens_zero_delta_witness :
    (fun b => refillTokens b b.lastRefillTime)^[3]
        ({ capacity := 10, tokens := 3, refillRate := 2,
           fractionalTokens := 1/2, lastRefillTime := 7 } : tokenBucket)
      = refillTokens
          { capacity := 10, tokens := 3, refillRate := 2,
            fractionalTokens := 1/2, lastRefillTime := 7 }
          ({ capacity := 10, tokens := 3, refillRate := 2,
             fractionalTokens := 1/2, lastRefillTime := 7 } : tokenBucket).lastRefillTime ∧
    refillTokens
        { capacity := 10, tokens := 3, refillRate := 2,
          fractionalTokens := 1/2, lastRefillTime := 7 }
        ({ capacity := 10, tokens := 3, refillRate := 2,
           fractionalTokens := 1/2, lastRefillTime := 7 } : tokenBucket).lastRefillTime
      = { capacity := 10, tokens := 3, refillRate := 2,
          fractionalTokens := 1/2, lastRefillTime := 7 } :=
  refillTokens_zero_delta _ 3 (by norm_num) (by norm_num)

/-- C8 counterexample: the shutdown flag was raised (and the listener
closed) while `Accept` was blocked, so the top-of-loop read still saw
`false`; the claim says the loop checks the flag before the retry path and
exits, but the iteration enters the retry path (retry count 0 becomes 1,
with the one-second sleep), which is not an exit. -/
theorem acceptIteration_shutdown_retries :
    acceptIteration false false true 0 = acceptStep.retried 1 ∧
    acceptStep.retried 1 ≠ acceptStep.exited := by
  decide

/-- C8 amended: the accept loop observes the shutdown flag only at the top
of an iteration. An iteration whose top-of-loop read sees the flag exits;
an accept error is handled without consulting the flag, entering the retry
path whenever the retry count is under the limit — so a closure-induced
error during shutdown is treated as one retryable failure and the loop
exits only at the next iteration's flag check. -/
theorem acceptIteration_flag_only_at_top :
    (∀ acceptOk shutdownAtError : Bool, ∀ retryCount : Nat,
      acceptIteration true acceptOk shutdownAtError retryCount = acceptStep.exited) ∧
    (∀ shutdownAtError : Bool, ∀ retryCount : Nat,
      acceptIteration false false shutdownAtError retryCount
        = if retryCount < retryLimit then acceptStep.retried (retryCount + 1)
          else acceptStep.fatalExit) := by
  constructor
  · intro acceptOk shutdownAtError retryCount
    simp [acceptIteration]
  · intro shutdownAtError retryCount
    simp [acceptIteration]

/-- C9: the claim says that without the `-config` flag the program prints
usage and exits non-zero. The code, evaluated at that input: it prints the
error and usage but then returns from `main`, so the process exit status
is 0, not non-zero. -/
theorem mainConfigFlagCheck_empty_exits_zero :
    mainConfigFlagCheck "" = { printedUsage := true, exitCode := some 0 } := rfl

/-- C4: when the rate limiter denies the client, `RouteConnection` returns
the rate-limited error, the registry is untouched (no backend counter is
read or written, since `GetBackend` is never reached), and no dial is
attempted; only the limiter component of the state changes. -/
theorem routeConnection_rate_limited (lb : LBState) (clientID : String)
    (allowed : List String) (now : ℚ) (dialOk transferOk : Bool)
    (h : (allowConnection lb.rl clientID now).1 = false) :
    RouteConnection lb clientID allowed now dialOk transferOk
      = { result := some lbError.ErrRateLimitReached
          state := { backends := lb.backends, rl := (allowConnection lb.rl clientID now).2 }
          dialAttempted := false } := by
  unfold RouteConnection
  simp [h]

/-- Witness for C4: a limiter whose default capacity is zero denies the
first connection, and routing returns the rate-limited error with the
registry unchanged and no dial. -/
theorem routeConnection_rate_limited_witness :
    RouteConnection
        { backends := [{ Address := "127.0.0.1:5001", connections := 0 }],
          rl := newRateLimiter 0 2 }
        "client1" ["127.0.0.1:5001"] 0 true true
      = { result := some lbError.ErrRateLimitReached
          state := { backends := [{ Address := "127.0.0.1:5001", connections := 0 }],
                     rl := (allowConnection (newRateLimiter 0 2) "client1" 0).2 }
          dialAttempted := false } :=
  routeConnection_rate_limited
    { backends := [{ Address := "127.0.0.1:5001", connections := 0 }],
      rl := newRateLimiter 0 2 }
    "client1" ["127.0.0.1:5001"] 0 true true
    (by norm_num [allowConnection, initialBucket, lookupKey, newRateLimiter,
      newTokenBucket, takeToken, refillTokens])

/-- The function `strBytes` distributes over string concatenation. -/
theorem strBytes_append (a b : String) : strBytes (a ++ b) = strBytes a ++ strBytes b := by
  obtain ⟨la⟩ := a
  obtain ⟨lb⟩ := b
  simp [strBytes, String.append]

/-- C7: `GenerateClientID` equals the lowercase hexadecimal SHA-256 of the
UTF-8 bytes of the CommonName, a 0x3A separator byte, and the serial
string — and at CN = "client1.example.com", serial = "1234567890" it is
the lowercase hex SHA-256 of "client1.example.com:1234567890". -/
theorem generateClientID_spec :
    (∀ cn s : String, GenerateClientID cn s
        = hexEncode (sha256 (strBytes cn ++ 0x3A :: strBytes s))) ∧
    GenerateClientID "client1.example.com" "1234567890"
      = "92bca0473241344fca4b1d7df0e8853ec6e75d78519b5713acb71bf4b1dee68b" := by
  constructor
  · intro cn s
    have h1 : strBytes (cn ++ ":" ++ s) = strBytes cn ++ 0x3A :: strBytes s := by
      rw [strBytes_append, strBytes_append]
      rw [show strBytes ":" = [0x3A] from rfl, List.append_assoc]
      rfl
    simp [GenerateClientID, h1]
  · decide

end TcpLb
